import Mathlib

/-!
A shallow embedding, in Lean, of the audiblez e-book → audiobook pipeline
(`audiblez.py`): the chapter classifier (`is_chapter`, `find_chapters`), the
text extractor (`extract_texts`), the synthesis batch runner (the loop of
`main`), the assembler (`create_m4b`) and the CLI entry (`cli_main`).

Python strings are modelled as lists of characters; the filesystem as an
association list from paths to written contents; the external TTS engine as an
abstract function from text to samples; the external muxing tool's exit code
as a parameter.  Observable actions (TTS calls, per-job states, progress
values) are recorded in instrumentation fields of the run state.
-/

namespace Audiblez

/-- A Python string, modelled as its list of characters. -/
abbrev Str := List Char

/-- Python `str.strip()`: drop leading and trailing whitespace. -/
def pyStrip (s : Str) : Str :=
  ((s.dropWhile Char.isWhitespace).reverse.dropWhile Char.isWhitespace).reverse

/-- Python slice `s[:n]`. -/
def pyTake (s : Str) (n : Nat) : Str := s.take n

/-- Python `str.lower()` (ASCII letters, as relevant here). -/
def pyLower (s : Str) : Str := s.map Char.toLower

/-- Python substring test `pat in s`. -/
def pySub (pat : Str) : Str → Bool
  | [] => decide (pat = [])
  | c :: rest => pat.isPrefixOf (c :: rest) || pySub pat rest

/-- Truth value of Python `re.search(pat + r"\d{1,3}", s)`: a greedy digit
repetition succeeds on a search iff the literal part occurs followed by at
least one digit. -/
def searchPatDigits (pat : Str) : Str → Bool
  | [] => false
  | c :: rest =>
    (pat.isPrefixOf (c :: rest) &&
      (match (c :: rest).drop pat.length with
        | d :: _ => d.isDigit
        | [] => false)) || searchPatDigits pat rest

/-! ### Chapter Classifier (`is_chapter`, `find_chapters`) -/

/-- The kind of an item of the e-book (`c.get_type()`). -/
inductive ItemKind where
  | document
  | cover
  | other
deriving DecidableEq

/-- A document item of the e-book: its name and kind. -/
structure DocumentItem where
  name : Str
  kind : ItemKind
deriving DecidableEq

/-- `is_chapter(c)` from the source: the lowercased name contains `"chapter"`
(the source lowercases once more when testing the substring), or matches one of
the searches `part\d{1,3}`, `ch\d{1,3}`, `chap\d{1,3}`. -/
def is_chapter (c : DocumentItem) : Bool :=
  let name := pyLower c.name
  pySub "chapter".toList (pyLower name) ||
    searchPatDigits "part".toList name ||
    searchPatDigits "ch".toList name ||
    searchPatDigits "chap".toList name

/-- `find_chapters(book)` from the source: the document items whose name passes
`is_chapter`; if none does, every document item. -/
def find_chapters (items : List DocumentItem) : List DocumentItem :=
  let chapters := items.filter fun c => c.kind == ItemKind.document && is_chapter c
  if chapters = [] then
    items.filter fun c => c.kind == ItemKind.document
  else
    chapters

/-- Claim C5: whenever the item list contains at least one Document item, Auto
classification returns a non-empty list; and when no Document item's lowercased
name matches any heuristic rule, the classifier returns all Document items. -/
theorem C5_auto_fallback (items : List DocumentItem)
    (hdoc : ∃ c ∈ items, c.kind = ItemKind.document) :
    find_chapters items ≠ [] ∧
      ((∀ c ∈ items, c.kind = ItemKind.document → is_chapter c = false) →
        find_chapters items = items.filter fun c => c.kind == ItemKind.document) := by
  obtain ⟨c, hc, hk⟩ := hdoc
  by_cases h : items.filter (fun c => c.kind == ItemKind.document && is_chapter c) = []
  · constructor
    · intro habs
      rw [find_chapters] at habs
      simp only [h, if_pos] at habs
      have : c ∈ items.filter fun c => c.kind == ItemKind.document :=
        List.mem_filter.mpr ⟨hc, by simp [hk]⟩
      rw [habs] at this
      exact (List.not_mem_nil c) this
    · intro _
      rw [find_chapters]
      simp [h]
  · constructor
    · intro habs
      rw [find_chapters] at habs
      rw [if_neg h] at habs
      exact h habs
    · intro hnone
      exfalso
      apply h
      rw [List.filter_eq_nil_iff]
      intro a ha
      simp only [Bool.and_eq_true, beq_iff_eq, not_and]
      intro hka
      simp [hnone a ha hka]

/-- Witness for C5 at a concrete input: a single Document item named
`intro.html` (which matches no heuristic rule). -/
theorem C5_auto_fallback_witness :
    find_chapters [⟨"intro.html".toList, ItemKind.document⟩] ≠ [] ∧
      find_chapters [⟨"intro.html".toList, ItemKind.document⟩] =
        List.filter (fun c => c.kind == ItemKind.document)
          [⟨"intro.html".toList, ItemKind.document⟩] := by
  have h := C5_auto_fallback [⟨"intro.html".toList, ItemKind.document⟩]
    ⟨⟨"intro.html".toList, ItemKind.document⟩, by decide, rfl⟩
  exact ⟨h.1, h.2 (by decide)⟩

/-! ### Text Extractor (`extract_texts`) -/

/-- A parsed markup node: a text fragment or an element with a tag and
children (the tree BeautifulSoup builds from the chapter body). -/
inductive Node where
  | text : Str → Node
  | elem : Str → List Node → Node

mutual

/-- BeautifulSoup `element.text`: the concatenation of all text fragments of
the subtree, in document order. -/
def innerText : Node → Str
  | .text s => s
  | .elem _ children => innerTextList children

/-- `innerText` over a forest, left to right. -/
def innerTextList : List Node → Str
  | [] => []
  | n :: ns => innerText n ++ innerTextList ns

end

mutual

/-- BeautifulSoup `soup.find_all(tags)` restricted to one node: all elements
of the subtree (the node itself included) whose tag is in `tags`, in document
order (pre-order). -/
def findAll (tags : List Str) : Node → List Node
  | .text _ => []
  | .elem t children =>
      (if t ∈ tags then [Node.elem t children] else []) ++ findAllList tags children

/-- `findAll` over a forest, left to right. -/
def findAllList (tags : List Str) : List Node → List Node
  | [] => []
  | n :: ns => findAll tags n ++ findAllList tags ns

end

/-- The allow-listed structural tags of `extract_texts`. -/
def html_content_tags : List Str :=
  ["title".toList, "p".toList, "h1".toList, "h2".toList, "h3".toList, "h4".toList]

/-- The body of the `extract_texts` loop for one chapter: starting from the
empty accumulator, for each matched element take its inner text (stripped when
non-empty, as in `child.text.strip() if child.text else ""`) and, when the
result is non-empty, append it followed by one newline. -/
def chapter_text (body : List Node) : Str :=
  (findAllList html_content_tags body).foldl
    (fun acc child =>
      let inner := if innerText child ≠ [] then pyStrip (innerText child) else []
      if inner ≠ [] then acc ++ inner ++ ['\n'] else acc) []

/-- `extract_texts(chapters)` from the source, one parsed body per chapter. -/
def extract_texts (bodies : List (List Node)) : List Str :=
  bodies.map chapter_text

/-- Modelled from the spec's wording of the claim, for comparison with
`chapter_text`: the concatenation, in document order, of the stripped inner
text of each element whose tag is allow-listed, each non-empty fragment
followed by exactly one newline, whitespace-only fragments omitted. -/
def specChapterText (body : List Node) : Str :=
  List.flatten
    ((((findAllList html_content_tags body).map fun e => pyStrip (innerText e)).filter
      fun f => !f.isEmpty).map fun f => f ++ ['\n'])

theorem pyStrip_nil : pyStrip [] = [] := rfl

theorem chapter_text_eq_fold (body : List Node) :
    chapter_text body = (findAllList html_content_tags body).foldl
      (fun acc child =>
        if pyStrip (innerText child) = [] then acc
        else acc ++ pyStrip (innerText child) ++ ['\n']) [] := by
  rw [chapter_text]
  congr 1
  funext acc child
  by_cases h : innerText child = []
  · simp [h, pyStrip_nil]
  · simp only [h, ne_eq, not_false_eq_true, if_true]
    by_cases h2 : pyStrip (innerText child) = []
    · simp [h2]
    · simp [h2]

theorem fragments_fold (es : List Node) : ∀ acc : Str,
    es.foldl
      (fun acc child =>
        if pyStrip (innerText child) = [] then acc
        else acc ++ pyStrip (innerText child) ++ ['\n']) acc =
      acc ++ List.flatten
        (((es.map fun e => pyStrip (innerText e)).filter
          fun f => !f.isEmpty).map fun f => f ++ ['\n']) := by
  induction es with
  | nil => intro acc; simp
  | cons e es ih =>
    intro acc
    rw [List.foldl_cons]
    by_cases hp : pyStrip (innerText e) = []
    · rw [if_pos hp, ih acc]
      simp [hp]
    · rw [if_neg hp, ih (acc ++ pyStrip (innerText e) ++ ['\n'])]
      simp [hp, List.append_assoc]

/-- Claim C6: for every chapter, the extracted text is exactly the
concatenation, in document order, of the stripped inner text of each
allow-listed element, each non-empty fragment followed by exactly one newline,
whitespace-only fragments omitted, and no other tag contributing text. -/
theorem C6_extracted_text_spec (bodies : List (List Node)) :
    extract_texts bodies = bodies.map specChapterText := by
  apply List.map_congr_left
  intro body _
  rw [chapter_text_eq_fold, specChapterText, fragments_fold]
  simp

/-! ### Synthesis Batch Runner (the loop of `main`, lines 80–123) -/

/-- The per-job outcome of the runner (the spec's `SynthesisJob` states that
the sequential loop can reach). -/
inductive JobState where
  | skippedEmpty
  | skippedExists
  | done
deriving DecidableEq

variable {α β : Type}

/-- The state threaded through the runner loop.  `fs` is the filesystem (an
association list from path to written `(samples, sample_rate)`); `calls`
records each TTS invocation as (chapter index, text actually passed to
`kokoro.create`); `states`, `mp3Files`, `processed` and `trace` record the
per-job outcomes, the `chapter_mp3_files` list, `processed_chars`, and the
value of `processed_chars` after each loop iteration. -/
structure RunState (α : Type) where
  fs : List (Str × (α × Nat))
  calls : List (Nat × Str)
  states : List (Nat × JobState)
  mp3Files : List Str
  processed : Nat
  trace : List Nat

/-- `Path(p).exists()` over the modelled filesystem. -/
def fileExists (fs : List (Str × α)) (p : Str) : Bool :=
  fs.any fun q => q.1 == p

/-- Helper for `pyReplace`: scan the string; a positive first argument means
that many characters of a just-replaced occurrence remain to be consumed. -/
def pyReplaceAux (old new : Str) : Nat → Str → Str
  | _, [] => []
  | k + 1, _ :: rest => pyReplaceAux old new k rest
  | 0, c :: rest =>
    if old ≠ [] && old.isPrefixOf (c :: rest) then
      new ++ pyReplaceAux old new (old.length - 1) rest
    else
      c :: pyReplaceAux old new 0 rest

/-- Python `s.replace(old, new)` for non-empty `old`: replace occurrences left
to right, non-overlapping. -/
def pyReplace (old new s : Str) : Str := pyReplaceAux old new 0 s

/-- Decimal digits of a natural number, as in Python string interpolation. -/
def natRepr (n : Nat) : Str := Nat.toDigits 10 n

/-- `filename.replace(".epub", f"_chapter_{i}.wav")` from the source. -/
def chapterFilename (filename : Str) (i : Nat) : Str :=
  pyReplace ".epub".toList ("_chapter_".toList ++ natRepr i ++ ".wav".toList) filename

/-- `intro = f"{title} by {creator}"` from the source. -/
def introLine (title creator : Str) : Str := title ++ " by ".toList ++ creator

/-- The announcement text prepended to chapter 1: `intro + ".\n\n"`. -/
def announceOf (introL : Str) : Str := introL ++ ".\n\n".toList

/-- One iteration of the runner loop, on the enumerated pair `(i, text)`:
skip when the stripped text is shorter than 10 characters; otherwise append
the chapter filename to `chapter_mp3_files`; skip when that file exists;
otherwise prepend the announcement when `i == 1`, call the TTS engine on the
first 200 characters of the text (the `text[:200]` slice of the source), write
the result to the chapter file and update the progress counters. -/
def step (synth : Str → α × Nat) (filename introL : Str) (s : RunState α) :
    Nat × Str → RunState α
  | (i, text) =>
    if (pyStrip text).length < 10 then
      { s with states := s.states ++ [(i, JobState.skippedEmpty)],
               trace := s.trace ++ [s.processed] }
    else
      let fn := chapterFilename filename i
      let mp3 := s.mp3Files ++ [fn]
      if fileExists s.fs fn then
        { s with mp3Files := mp3,
                 states := s.states ++ [(i, JobState.skippedExists)],
                 trace := s.trace ++ [s.processed] }
      else
        let text2 := if i = 1 then announceOf introL ++ text else text
        let out := synth (pyTake text2 200)
        { fs := (fn, out) :: s.fs,
          calls := s.calls ++ [(i, pyTake text2 200)],
          states := s.states ++ [(i, JobState.done)],
          mp3Files := mp3,
          processed := s.processed + text2.length,
          trace := s.trace ++ [s.processed + text2.length] }

/-- Python `enumerate(xs, start=n)`. -/
def pyEnum (n : Nat) : List β → List (Nat × β)
  | [] => []
  | x :: xs => (n, x) :: pyEnum (n + 1) xs

/-- The runner state before the loop: the given filesystem, empty
instrumentation, `processed_chars = 0`. -/
def initState (fs₀ : List (Str × (α × Nat))) : RunState α :=
  { fs := fs₀, calls := [], states := [], mp3Files := [], processed := 0, trace := [] }

/-- `total_chars = sum(map(len, texts))` from the source. -/
def totalChars (texts : List Str) : Nat := (texts.map List.length).sum

/-- The runner: fold the loop body over `enumerate(texts, start=1)`. -/
def runChapters (synth : Str → α × Nat) (filename title creator : Str)
    (texts : List Str) (fs₀ : List (Str × (α × Nat))) : RunState α :=
  (pyEnum 1 texts).foldl (step synth filename (introLine title creator)) (initState fs₀)

/-- After the loop, `main` hands `chapter_mp3_files` to `create_m4b` exactly
when ffmpeg is available (`if has_ffmpeg: create_m4b(chapter_mp3_files, ...)`). -/
def assemblerInput (hasFfmpeg : Bool) (r : RunState α) : Option (List Str) :=
  if hasFfmpeg then some r.mp3Files else none

/-! ### Helper lemmas about one runner iteration -/

theorem step_empty (synth : Str → α × Nat) (filename introL : Str) (s : RunState α)
    (i : Nat) (t : Str) (h : (pyStrip t).length < 10) :
    step synth filename introL s (i, t) =
      { s with states := s.states ++ [(i, JobState.skippedEmpty)],
               trace := s.trace ++ [s.processed] } := by
  simp [step, h]

theorem step_exists (synth : Str → α × Nat) (filename introL : Str) (s : RunState α)
    (i : Nat) (t : Str) (h : ¬ (pyStrip t).length < 10)
    (hex : fileExists s.fs (chapterFilename filename i) = true) :
    step synth filename introL s (i, t) =
      { s with mp3Files := s.mp3Files ++ [chapterFilename filename i],
               states := s.states ++ [(i, JobState.skippedExists)],
               trace := s.trace ++ [s.processed] } := by
  simp [step, h, hex]

theorem step_done (synth : Str → α × Nat) (filename introL : Str) (s : RunState α)
    (i : Nat) (t : Str) (h : ¬ (pyStrip t).length < 10)
    (hex : fileExists s.fs (chapterFilename filename i) = false) :
    step synth filename introL s (i, t) =
      { fs := (chapterFilename filename i,
               synth (pyTake (if i = 1 then announceOf introL ++ t else t) 200)) :: s.fs,
        calls := s.calls ++ [(i, pyTake (if i = 1 then announceOf introL ++ t else t) 200)],
        states := s.states ++ [(i, JobState.done)],
        mp3Files := s.mp3Files ++ [chapterFilename filename i],
        processed := s.processed + (if i = 1 then announceOf introL ++ t else t).length,
        trace := s.trace ++ [s.processed + (if i = 1 then announceOf introL ++ t else t).length] } := by
  simp [step, h, hex]

theorem step_processed_ge (synth : Str → α × Nat) (filename introL : Str) (s : RunState α)
    (p : Nat × Str) : s.processed ≤ (step synth filename introL s p).processed := by
  obtain ⟨i, t⟩ := p
  by_cases h : (pyStrip t).length < 10
  · rw [step_empty synth filename introL s i t h]
  · by_cases hex : fileExists s.fs (chapterFilename filename i) = true
    · rw [step_exists synth filename introL s i t h hex]
    · rw [step_done synth filename introL s i t h (by simpa using hex)]
      exact Nat.le_add_right _ _

theorem step_processed_le (synth : Str → α × Nat) (filename introL : Str) (s : RunState α)
    (i : Nat) (t : Str) :
    (step synth filename introL s (i, t)).processed ≤
      s.processed + (if i = 1 then (announceOf introL).length else 0) + t.length := by
  by_cases h : (pyStrip t).length < 10
  · rw [step_empty synth filename introL s i t h]
    exact Nat.le_add_right_of_le (Nat.le_add_right _ _)
  · by_cases hex : fileExists s.fs (chapterFilename filename i) = true
    · rw [step_exists synth filename introL s i t h hex]
      exact Nat.le_add_right_of_le (Nat.le_add_right _ _)
    · rw [step_done synth filename introL s i t h (by simpa using hex)]
      by_cases h1 : i = 1
      · simp [h1]
        omega
      · simp [h1]

theorem step_trace (synth : Str → α × Nat) (filename introL : Str) (s : RunState α)
    (p : Nat × Str) :
    (step synth filename introL s p).trace =
      s.trace ++ [(step synth filename introL s p).processed] := by
  obtain ⟨i, t⟩ := p
  by_cases h : (pyStrip t).length < 10
  · rw [step_empty synth filename introL s i t h]
  · by_cases hex : fileExists s.fs (chapterFilename filename i) = true
    · rw [step_exists synth filename introL s i t h hex]
    · rw [step_done synth filename introL s i t h (by simpa using hex)]

theorem step_fs_sub (synth : Str → α × Nat) (filename introL : Str) (s : RunState α)
    (p : Nat × Str) (q : Str × (α × Nat)) (hq : q ∈ s.fs) :
    q ∈ (step synth filename introL s p).fs := by
  obtain ⟨i, t⟩ := p
  by_cases h : (pyStrip t).length < 10
  · rw [step_empty synth filename introL s i t h]; exact hq
  · by_cases hex : fileExists s.fs (chapterFilename filename i) = true
    · rw [step_exists synth filename introL s i t h hex]; exact hq
    · rw [step_done synth filename introL s i t h (by simpa using hex)]
      exact List.mem_cons_of_mem _ hq

theorem fileExists_iff (fs : List (Str × (α × Nat))) (p : Str) :
    fileExists fs p = true ↔ ∃ q ∈ fs, q.1 = p := by
  rw [fileExists, List.any_eq_true]
  constructor
  · rintro ⟨q, hq, he⟩; exact ⟨q, hq, by simpa using he⟩
  · rintro ⟨q, hq, he⟩; exact ⟨q, hq, by simpa using he⟩

theorem step_fileExists_mono (synth : Str → α × Nat) (filename introL : Str)
    (s : RunState α) (p : Nat × Str) (path : Str)
    (h : fileExists s.fs path = true) :
    fileExists (step synth filename introL s p).fs path = true := by
  rw [fileExists_iff] at h ⊢
  obtain ⟨q, hq, he⟩ := h
  exact ⟨q, step_fs_sub synth filename introL s p q hq, he⟩

theorem step_states (synth : Str → α × Nat) (filename introL : Str) (s : RunState α)
    (p : Nat × Str) :
    ∃ j, (step synth filename introL s p).states = s.states ++ [(p.1, j)] := by
  obtain ⟨i, t⟩ := p
  by_cases h : (pyStrip t).length < 10
  · exact ⟨JobState.skippedEmpty, by rw [step_empty synth filename introL s i t h]⟩
  · by_cases hex : fileExists s.fs (chapterFilename filename i) = true
    · exact ⟨JobState.skippedExists, by rw [step_exists synth filename introL s i t h hex]⟩
    · exact ⟨JobState.done, by rw [step_done synth filename introL s i t h (by simpa using hex)]⟩

/-! ### Helper lemmas about `pyEnum` -/

theorem pyEnum_ge : ∀ (l : List β) (n i : Nat) (x : β), (i, x) ∈ pyEnum n l → n ≤ i := by
  intro l
  induction l with
  | nil => intro n i x h; simp [pyEnum] at h
  | cons y l ih =>
    intro n i x h
    rw [pyEnum] at h
    rcases List.mem_cons.mp h with h | h
    · obtain ⟨h1, _⟩ := Prod.mk.injEq .. ▸ h
      omega
    · have := ih (n + 1) i x h
      omega

theorem pyEnum_inj : ∀ (l : List β) (n i : Nat) (x y : β),
    (i, x) ∈ pyEnum n l → (i, y) ∈ pyEnum n l → x = y := by
  intro l
  induction l with
  | nil => intro n i x y h _; simp [pyEnum] at h
  | cons z l ih =>
    intro n i x y hx hy
    rw [pyEnum] at hx hy
    rcases List.mem_cons.mp hx with hx | hx <;> rcases List.mem_cons.mp hy with hy | hy
    · have hx' := (Prod.mk.injEq .. ▸ hx)
      have hy' := (Prod.mk.injEq .. ▸ hy)
      rw [hx'.2, hy'.2]
    · have hx' := (Prod.mk.injEq .. ▸ hx)
      have := pyEnum_ge l (n + 1) i y hy
      omega
    · have hy' := (Prod.mk.injEq .. ▸ hy)
      have := pyEnum_ge l (n + 1) i x hx
      omega
    · exact ih (n + 1) i x y hx hy

/-! ### Helper lemmas about the whole runner loop -/

theorem foldl_mp3 (synth : Str → α × Nat) (filename introL : Str) :
    ∀ (l : List (Nat × Str)) (s : RunState α),
      (l.foldl (step synth filename introL) s).mp3Files =
        s.mp3Files ++ (l.filter fun p => !decide ((pyStrip p.2).length < 10)).map
          (fun p => chapterFilename filename p.1) := by
  intro l
  induction l with
  | nil => intro s; simp
  | cons p l ih =>
    intro s
    obtain ⟨i, t⟩ := p
    rw [List.foldl_cons]
    by_cases h : (pyStrip t).length < 10
    · rw [step_empty synth filename introL s i t h, ih]
      simp [h]
    · by_cases hex : fileExists s.fs (chapterFilename filename i) = true
      · rw [step_exists synth filename introL s i t h hex, ih]
        simp [h, List.append_assoc]
      · rw [step_done synth filename introL s i t h (by simpa using hex), ih]
        simp [h, List.append_assoc]

theorem foldl_calls_mem (synth : Str → α × Nat) (filename introL : Str) :
    ∀ (l : List (Nat × Str)) (s : RunState α) (c : Nat × Str),
      c ∈ (l.foldl (step synth filename introL) s).calls →
        c ∈ s.calls ∨ ∃ t, (c.1, t) ∈ l ∧ ¬ (pyStrip t).length < 10 ∧
          c.2 = pyTake (if c.1 = 1 then announceOf introL ++ t else t) 200 := by
  intro l
  induction l with
  | nil => intro s c hc; exact Or.inl hc
  | cons p l ih =>
    intro s c hc
    obtain ⟨i, t⟩ := p
    rw [List.foldl_cons] at hc
    by_cases h : (pyStrip t).length < 10
    · rw [step_empty synth filename introL s i t h] at hc
      rcases ih _ c hc with h1 | ⟨t', ht', hne, he⟩
      · exact Or.inl h1
      · exact Or.inr ⟨t', List.mem_cons_of_mem _ ht', hne, he⟩
    · by_cases hex : fileExists s.fs (chapterFilename filename i) = true
      · rw [step_exists synth filename introL s i t h hex] at hc
        rcases ih _ c hc with h1 | ⟨t', ht', hne, he⟩
        · exact Or.inl h1
        · exact Or.inr ⟨t', List.mem_cons_of_mem _ ht', hne, he⟩
      · rw [step_done synth filename introL s i t h (by simpa using hex)] at hc
        rcases ih _ c hc with h1 | ⟨t', ht', hne, he⟩
        · rcases List.mem_append.mp h1 with h2 | h2
          · exact Or.inl h2
          · rcases List.mem_singleton.mp h2 with rfl
            exact Or.inr ⟨t, List.mem_cons_self _ _, h, rfl⟩
        · exact Or.inr ⟨t', List.mem_cons_of_mem _ ht', hne, he⟩

theorem foldl_states_sub (synth : Str → α × Nat) (filename introL : Str) :
    ∀ (l : List (Nat × Str)) (s : RunState α) (st : Nat × JobState),
      st ∈ s.states → st ∈ (l.foldl (step synth filename introL) s).states := by
  intro l
  induction l with
  | nil => intro s st h; exact h
  | cons p l ih =>
    intro s st h
    rw [List.foldl_cons]
    apply ih
    obtain ⟨j, hj⟩ := step_states synth filename introL s p
    rw [hj]
    exact List.mem_append_left _ h

theorem foldl_states_empty_mem (synth : Str → α × Nat) (filename introL : Str) :
    ∀ (l : List (Nat × Str)) (s : RunState α) (i : Nat) (t : Str),
      (i, t) ∈ l → (pyStrip t).length < 10 →
      (i, JobState.skippedEmpty) ∈ (l.foldl (step synth filename introL) s).states := by
  intro l
  induction l with
  | nil => intro s i t h _; simp at h
  | cons p l ih =>
    intro s i t hmem h
    rw [List.foldl_cons]
    rcases List.mem_cons.mp hmem with heq | hmem'
    · rw [← heq]
      apply foldl_states_sub
      rw [step_empty synth filename introL s i t h]
      simp
    · exact ih _ i t hmem' h

theorem foldl_fileExists_mono (synth : Str → α × Nat) (filename introL : Str) :
    ∀ (l : List (Nat × Str)) (s : RunState α) (path : Str),
      fileExists s.fs path = true →
      fileExists (l.foldl (step synth filename introL) s).fs path = true := by
  intro l
  induction l with
  | nil => intro s path h; exact h
  | cons p l ih =>
    intro s path h
    rw [List.foldl_cons]
    exact ih _ path (step_fileExists_mono synth filename introL s p path h)

theorem foldl_files_exist (synth : Str → α × Nat) (filename introL : Str) :
    ∀ (l : List (Nat × Str)) (s : RunState α) (i : Nat) (t : Str),
      (i, t) ∈ l → ¬ (pyStrip t).length < 10 →
      fileExists (l.foldl (step synth filename introL) s).fs
        (chapterFilename filename i) = true := by
  intro l
  induction l with
  | nil => intro s i t h _; simp at h
  | cons p l ih =>
    intro s i t hmem hne
    rw [List.foldl_cons]
    rcases List.mem_cons.mp hmem with heq | hmem'
    · rw [← heq]
      apply foldl_fileExists_mono
      by_cases hex : fileExists s.fs (chapterFilename filename i) = true
      · rw [step_exists synth filename introL s i t hne hex]
        exact hex
      · rw [step_done synth filename introL s i t hne (by simpa using hex)]
        rw [fileExists_iff]
        exact ⟨_, List.mem_cons_self _ _, rfl⟩
    · exact ih _ i t hmem' hne

theorem foldl_inert (synth : Str → α × Nat) (filename introL : Str) :
    ∀ (l : List (Nat × Str)) (s : RunState α),
      (∀ i t, (i, t) ∈ l → ¬ (pyStrip t).length < 10 →
        fileExists s.fs (chapterFilename filename i) = true) →
      (l.foldl (step synth filename introL) s).fs = s.fs ∧
      (l.foldl (step synth filename introL) s).calls = s.calls ∧
      ∀ st ∈ (l.foldl (step synth filename introL) s).states,
        st ∈ s.states ∨ st.2 = JobState.skippedEmpty ∨ st.2 = JobState.skippedExists := by
  intro l
  induction l with
  | nil => intro s _; exact ⟨rfl, rfl, fun st h => Or.inl h⟩
  | cons p l ih =>
    intro s hall
    obtain ⟨i, t⟩ := p
    rw [List.foldl_cons]
    by_cases h : (pyStrip t).length < 10
    · rw [step_empty synth filename introL s i t h]
      obtain ⟨h1, h2, h3⟩ := ih { s with states := s.states ++ [(i, JobState.skippedEmpty)],
                                          trace := s.trace ++ [s.processed] }
        (fun i' t' hm hn => hall i' t' (List.mem_cons_of_mem _ hm) hn)
      refine ⟨h1, h2, fun st hst => ?_⟩
      rcases h3 st hst with h4 | h4
      · rcases List.mem_append.mp h4 with h5 | h5
        · exact Or.inl h5
        · rcases List.mem_singleton.mp h5 with rfl
          exact Or.inr (Or.inl rfl)
      · exact Or.inr h4
    · have hex : fileExists s.fs (chapterFilename filename i) = true :=
        hall i t (List.mem_cons_self _ _) h
      rw [step_exists synth filename introL s i t h hex]
      obtain ⟨h1, h2, h3⟩ := ih { s with mp3Files := s.mp3Files ++ [chapterFilename filename i],
                                          states := s.states ++ [(i, JobState.skippedExists)],
                                          trace := s.trace ++ [s.processed] }
        (fun i' t' hm hn => hall i' t' (List.mem_cons_of_mem _ hm) hn)
      refine ⟨h1, h2, fun st hst => ?_⟩
      rcases h3 st hst with h4 | h4
      · rcases List.mem_append.mp h4 with h5 | h5
        · exact Or.inl h5
        · rcases List.mem_singleton.mp h5 with rfl
          exact Or.inr (Or.inr rfl)
      · exact Or.inr h4

theorem foldl_processed_le (synth : Str → α × Nat) (filename introL : Str) :
    ∀ (texts : List Str) (n : Nat) (s : RunState α),
      ((pyEnum n texts).foldl (step synth filename introL) s).processed ≤
        s.processed + totalChars texts +
          (if n ≤ 1 then (announceOf introL).length else 0) := by
  intro texts
  induction texts with
  | nil => intro n s; simp [pyEnum, totalChars]
  | cons t ts ih =>
    intro n s
    rw [pyEnum, List.foldl_cons]
    have h1 := step_processed_le synth filename introL s n t
    have h2 := ih (n + 1) (step synth filename introL s (n, t))
    have htot : totalChars (t :: ts) = t.length + totalChars ts := by
      simp [totalChars]
    match n with
    | 0 =>
      rw [if_pos (by omega)] at h2
      rw [if_pos (by omega)]
      rw [if_neg (by omega)] at h1
      omega
    | 1 =>
      simp only [if_pos rfl, Nat.le_refl] at h1 ⊢
      rw [if_neg (by omega)] at h2
      omega
    | (m + 2) =>
      rw [if_neg (by omega)] at h2 ⊢
      rw [if_neg (by omega)] at h1
      omega

theorem foldl_trace_chain (synth : Str → α × Nat) (filename introL : Str) :
    ∀ (l : List (Nat × Str)) (s : RunState α),
      ∃ d, (l.foldl (step synth filename introL) s).trace = s.trace ++ d ∧
        List.Chain' (· ≤ ·) (s.processed :: d) := by
  intro l
  induction l with
  | nil => intro s; exact ⟨[], by simp, List.chain'_singleton _⟩
  | cons p l ih =>
    intro s
    rw [List.foldl_cons]
    obtain ⟨d, hd, hchain⟩ := ih (step synth filename introL s p)
    refine ⟨(step synth filename introL s p).processed :: d, ?_, ?_⟩
    · rw [hd, step_trace]
      simp
    · exact List.chain'_cons.mpr ⟨step_processed_ge synth filename introL s p, hchain⟩

/-! ### Claims about the runner -/

set_option maxRecDepth 40000 in
/-- Claim C1 (evaluating the code at a failing input): for a single chapter of
250 characters, the TTS engine is invoked on the 200-character slice
`text[:200]` of the announcement-prefixed text — a proper prefix of the full
259-character text — so the persisted audio does not reflect the whole
chapter. -/
theorem C1_truncated_synthesis :
    (runChapters (fun t => (t, 24000)) "book.epub".toList "T".toList "A".toList
        [List.replicate 250 'a'] []).calls =
      [(1, pyTake (announceOf (introLine "T".toList "A".toList) ++ List.replicate 250 'a') 200)] ∧
    (pyTake (announceOf (introLine "T".toList "A".toList) ++ List.replicate 250 'a') 200).length
      = 200 ∧
    (announceOf (introLine "T".toList "A".toList) ++ List.replicate 250 'a').length = 259 := by
  decide

/-- Claim C3 (amended): `processed_chars` is monotonically non-decreasing
throughout the run, but its final value is only bounded by `total_chars` plus
the length of the announcement prepended to chapter 1 (which is counted in
`processed_chars` and not in `total_chars`). -/
theorem C3_progress_monotone_bounded (synth : Str → α × Nat)
    (filename title creator : Str) (texts : List Str) (fs₀ : List (Str × (α × Nat))) :
    List.Chain' (· ≤ ·) (0 :: (runChapters synth filename title creator texts fs₀).trace) ∧
      (runChapters synth filename title creator texts fs₀).processed ≤
        totalChars texts + (announceOf (introLine title creator)).length := by
  constructor
  · obtain ⟨d, hd, hchain⟩ := foldl_trace_chain synth filename (introLine title creator)
      (pyEnum 1 texts) (initState fs₀)
    rw [runChapters, hd]
    simpa [initState] using hchain
  · have h := foldl_processed_le synth filename (introLine title creator) texts 1 (initState fs₀)
    rw [if_pos (by omega)] at h
    simpa [runChapters, initState] using h

/-- Counterexample to claim C3 as stated: with title `T`, author `A` and one
chapter of exactly 10 characters, `processed_chars` ends at 19 while
`total_chars` is 10: the announcement's length is counted in the former only,
and the reported integer-truncated percentage is 190. -/
theorem C3_counterexample :
    totalChars ["0123456789".toList] = 10 ∧
      (runChapters (fun t => (t, 24000)) "book.epub".toList "T".toList "A".toList
        ["0123456789".toList] []).processed = 19 ∧
      ¬ (runChapters (fun t => (t, 24000)) "book.epub".toList "T".toList "A".toList
        ["0123456789".toList] []).processed ≤ totalChars ["0123456789".toList] ∧
      (runChapters (fun t => (t, 24000)) "book.epub".toList "T".toList "A".toList
        ["0123456789".toList] []).processed * 100 / totalChars ["0123456789".toList] = 190 := by
  decide

/-- Claim C4 (amended): the announcement is prepended exactly to the TTS call
of chapter index 1 (when chapter 1 is not skipped): every recorded call `(i, c)`
received the first 200 characters of chapter `i`'s own text, with the
announcement prepended when `i = 1` and bare otherwise — so when chapter 1 is
skipped, no chapter receives the announcement. -/
theorem C4_announce_only_chapter_one (synth : Str → α × Nat)
    (filename title creator : Str) (texts : List Str) (fs₀ : List (Str × (α × Nat)))
    (c : Nat × Str)
    (hc : c ∈ (runChapters synth filename title creator texts fs₀).calls) :
    ∃ t, (c.1, t) ∈ pyEnum 1 texts ∧ ¬ (pyStrip t).length < 10 ∧
      c.2 = pyTake (if c.1 = 1 then announceOf (introLine title creator) ++ t else t) 200 := by
  rw [runChapters] at hc
  rcases foldl_calls_mem synth filename (introLine title creator) (pyEnum 1 texts)
    (initState fs₀) c hc with h | h
  · simp [initState] at h
  · exact h

/-- Witness for C4 (amended) at a concrete input: one 12-character chapter,
whose call carries the announcement because its index is 1. -/
theorem C4_announce_only_chapter_one_witness :
    ∃ t, ((1 : Nat), t) ∈ pyEnum 1 ["hello world!".toList] ∧ ¬ (pyStrip t).length < 10 ∧
      "T by A.\n\nhello world!".toList =
        pyTake (if (1 : Nat) = 1
          then announceOf (introLine "T".toList "A".toList) ++ t else t) 200 :=
  C4_announce_only_chapter_one (fun t => (t, 24000)) "book.epub".toList "T".toList "A".toList
    ["hello world!".toList] [] (1, "T by A.\n\nhello world!".toList) (by decide)

/-- Counterexample to claim C4 as stated: chapter 1 is skipped as empty, so
chapter 2 is the first non-skipped chapter, yet its TTS call receives its bare
text: the announcement is prepended to no chapter at all. -/
theorem C4_counterexample :
    (runChapters (fun t => (t, 24000)) "book.epub".toList "T".toList "A".toList
        ["hi".toList, "hello world!".toList] []).states =
      [(1, JobState.skippedEmpty), (2, JobState.done)] ∧
    (runChapters (fun t => (t, 24000)) "book.epub".toList "T".toList "A".toList
        ["hi".toList, "hello world!".toList] []).calls = [(2, "hello world!".toList)] ∧
    (announceOf (introLine "T".toList "A".toList)).isPrefixOf "hello world!".toList = false := by
  decide

/-- Claim C7: a chapter whose stripped text is shorter than 10 characters is
marked Skipped-Empty and nothing else happens for it: its loop iteration
leaves the filesystem, the TTS calls and the assembler list untouched, and
over the whole run its index appears in no TTS call. -/
theorem C7_skip_empty (synth : Str → α × Nat) (filename title creator : Str)
    (texts : List Str) (fs₀ : List (Str × (α × Nat))) (s : RunState α) (i : Nat) (t : Str)
    (hmem : (i, t) ∈ pyEnum 1 texts) (h : (pyStrip t).length < 10) :
    step synth filename (introLine title creator) s (i, t) =
      { s with states := s.states ++ [(i, JobState.skippedEmpty)],
               trace := s.trace ++ [s.processed] } ∧
    (i, JobState.skippedEmpty) ∈ (runChapters synth filename title creator texts fs₀).states ∧
    i ∉ (runChapters synth filename title creator texts fs₀).calls.map Prod.fst := by
  refine ⟨step_empty synth filename (introLine title creator) s i t h, ?_, ?_⟩
  · rw [runChapters]
    exact foldl_states_empty_mem synth filename (introLine title creator)
      (pyEnum 1 texts) (initState fs₀) i t hmem h
  · intro habs
    obtain ⟨c, hc, hfst⟩ := List.mem_map.mp habs
    rw [runChapters] at hc
    rcases foldl_calls_mem synth filename (introLine title creator) (pyEnum 1 texts)
      (initState fs₀) c hc with h1 | ⟨t', ht', hne, _⟩
    · simp [initState] at h1
    · rw [hfst] at ht'
      rw [pyEnum_inj texts 1 i t' t ht' hmem] at hne
      exact hne h

/-- Witness for C7 at a concrete input: a 2-character chapter followed by a
12-character chapter. -/
theorem C7_skip_empty_witness :
    step (fun t => (t, 24000)) "book.epub".toList
        (introLine "T".toList "A".toList) (initState []) (1, "hi".toList) =
      { initState [] with
          states := (initState ([] : List (Str × (Str × Nat)))).states
            ++ [(1, JobState.skippedEmpty)],
          trace := (initState ([] : List (Str × (Str × Nat)))).trace
            ++ [(initState ([] : List (Str × (Str × Nat)))).processed] } ∧
    (1, JobState.skippedEmpty) ∈ (runChapters (fun t => (t, 24000)) "book.epub".toList
        "T".toList "A".toList ["hi".toList, "hello world!".toList] []).states ∧
    1 ∉ (runChapters (fun t => (t, 24000)) "book.epub".toList
        "T".toList "A".toList ["hi".toList, "hello world!".toList] []).calls.map Prod.fst :=
  C7_skip_empty (fun t => (t, 24000)) "book.epub".toList "T".toList "A".toList
    ["hi".toList, "hello world!".toList] [] (initState []) 1 "hi".toList
    (by decide) (by decide)

/-- Claim C8: rerunning the runner on the same chapters, starting from the
filesystem the first run left behind, performs zero TTS calls, resolves every
job to Skipped-Empty or Skipped-Exists, and leaves the files exactly as the
first run left them. -/
theorem C8_second_run_idempotent (synth : Str → α × Nat) (filename title creator : Str)
    (texts : List Str) (fs₀ : List (Str × (α × Nat))) :
    (runChapters synth filename title creator texts
        (runChapters synth filename title creator texts fs₀).fs).calls = [] ∧
    (runChapters synth filename title creator texts
        (runChapters synth filename title creator texts fs₀).fs).fs =
      (runChapters synth filename title creator texts fs₀).fs ∧
    ((runChapters synth filename title creator texts
        (runChapters synth filename title creator texts fs₀).fs).states.all
      fun st => st.2 == JobState.skippedEmpty || st.2 == JobState.skippedExists) = true := by
  have hex : ∀ i t, (i, t) ∈ pyEnum 1 texts → ¬ (pyStrip t).length < 10 →
      fileExists (initState (α := α)
        (runChapters synth filename title creator texts fs₀).fs).fs
        (chapterFilename filename i) = true := by
    intro i t hmem hne
    show fileExists (runChapters synth filename title creator texts fs₀).fs
      (chapterFilename filename i) = true
    rw [runChapters]
    exact foldl_files_exist synth filename (introLine title creator)
      (pyEnum 1 texts) (initState fs₀) i t hmem hne
  obtain ⟨h1, h2, h3⟩ := foldl_inert synth filename (introLine title creator)
    (pyEnum 1 texts) (initState (runChapters synth filename title creator texts fs₀).fs) hex
  refine ⟨?_, ?_, ?_⟩
  · rw [runChapters] at h2 ⊢
    exact h2
  · rw [runChapters] at h1 ⊢
    exact h1
  · rw [List.all_eq_true]
    intro st hst
    rw [runChapters] at hst
    rcases h3 st hst with h4 | h4 | h4
    · simp [initState] at h4
    · simp [h4]
    · simp [h4]

/-- Claim C10: the list handed to the Assembler is exactly the chapter files
of the chapters whose stripped text is at least 10 characters long, in
chapter-index order — chapters skipped because their file already existed
included, empty-skipped chapters excluded. -/
theorem C10_assembler_receives_nonempty_chapters (synth : Str → α × Nat)
    (filename title creator : Str) (texts : List Str) (fs₀ : List (Str × (α × Nat))) :
    assemblerInput true (runChapters synth filename title creator texts fs₀) =
      some (((pyEnum 1 texts).filter fun p => !decide ((pyStrip p.2).length < 10)).map
        fun p => chapterFilename filename p.1) := by
  rw [assemblerInput, if_pos rfl, runChapters, foldl_mp3]
  simp [initState]

/-! ### Audiobook Assembler (`create_m4b`) -/

/-- The observable outcome of `create_m4b`: which paths exist afterwards
(as a set of paths), and whether the success message was printed
(`proc.returncode == 0`). -/
structure AsmResult where
  fsAfter : List Str
  reportedSuccess : Bool
deriving DecidableEq

/-- `create_m4b(chapter_files, filename, ...)` from the source, with the
external tool's exit code as a parameter: compute
`tmp_filename = filename.replace(".epub", ".tmp.mp4")`; if it does not exist,
concatenate the chapter audio and export it there; run ffmpeg; then
`Path(tmp_filename).unlink()` unconditionally; print the success message only
when the exit code is 0. -/
def create_m4b (fs : List Str) (filename : Str) (exitCode : Int) : AsmResult :=
  let tmp_filename := pyReplace ".epub".toList ".tmp.mp4".toList filename
  let fs1 := if tmp_filename ∈ fs then fs else tmp_filename :: fs
  { fsAfter := fs1.filter fun p => !(p == tmp_filename),
    reportedSuccess := exitCode == 0 }

/-- Counterexample to claim C2 as stated: the external tool exits with code 1,
yet the intermediate combined file `book.tmp.mp4` is not on disk afterwards —
it was deleted despite the failure. -/
theorem C2_counterexample :
    (1 : Int) ≠ 0 ∧
      "book.tmp.mp4".toList ∉
        (create_m4b ["book.tmp.mp4".toList] "book.epub".toList 1).fsAfter := by
  decide

/-- Claim C2 (amended): the intermediate combined file is deleted
unconditionally after the external muxing tool runs, whatever its exit code;
only the success message is conditioned on a zero exit code. -/
theorem C2_unconditional_delete (fs : List Str) (filename : Str) (exitCode : Int) :
    pyReplace ".epub".toList ".tmp.mp4".toList filename ∉
      (create_m4b fs filename exitCode).fsAfter ∧
    (create_m4b fs filename exitCode).reportedSuccess = (exitCode == 0) := by
  refine ⟨?_, rfl⟩
  intro habs
  rw [create_m4b] at habs
  simp only [List.mem_filter] at habs
  simp at habs

/-- Witness for C2 (amended) at a concrete input: a failing exit code 1 with
the intermediate file present beforehand. -/
theorem C2_unconditional_delete_witness :
    pyReplace ".epub".toList ".tmp.mp4".toList "book.epub".toList ∉
      (create_m4b ["book.tmp.mp4".toList] "book.epub".toList 1).fsAfter ∧
    (create_m4b ["book.tmp.mp4".toList] "book.epub".toList 1).reportedSuccess =
      ((1 : Int) == 0) :=
  C2_unconditional_delete ["book.tmp.mp4".toList] "book.epub".toList 1

/-! ### CLI entry (`cli_main` and the provider check of `main`) -/

/-- The user-visible actions of the start-up path, in order. -/
inductive Event where
  | printAssetRemediation
  | printUsage
  | printInvalidProviders (invalid available : List Str)
  | setProviders (ps : List Str)
  | openDocument
  | runPipeline
deriving DecidableEq

/-- What the start-up path did: the events it emitted and the exit code it
stopped with, if it exited early. -/
structure CliOutcome where
  events : List Event
  exitCode : Option Nat
deriving DecidableEq

/-- The head of `main`: when a non-empty provider list was given, compare it
with the available providers; report invalid entries together with the
available set and exit 1; otherwise set the providers.  Only then is the
document opened (`epub.read_epub`) and the pipeline run. -/
def mainEvents (providers : Option (List Str)) (available : List Str) : CliOutcome :=
  match providers with
  | some (p :: ps) =>
    let invalid := (p :: ps).filter fun q => !available.contains q
    if invalid ≠ [] then
      { events := [Event.printInvalidProviders invalid available], exitCode := some 1 }
    else
      { events := [Event.setProviders (p :: ps), Event.openDocument, Event.runPipeline],
        exitCode := none }
  | _ => { events := [Event.openDocument, Event.runPipeline], exitCode := none }

/-- `cli_main()` from the source: if either model asset file is missing, print
the download instructions and exit 1; with no arguments, print usage and exit
1; otherwise run `main`, whose provider check precedes any document open. -/
def cli_main (modelAssetOk voicesAssetOk noArgs : Bool)
    (providers : Option (List Str)) (available : List Str) : CliOutcome :=
  if !modelAssetOk || !voicesAssetOk then
    { events := [Event.printAssetRemediation], exitCode := some 1 }
  else if noArgs then
    { events := [Event.printUsage], exitCode := some 1 }
  else
    mainEvents providers available

/-- Claim C9: a missing model asset file leads to remediation output and exit
code 1 with no document opened; an unknown provider name (with assets present
and arguments given) leads to a report naming the invalid and available
providers and exit code 1, again before any document is opened. -/
theorem C9_config_errors_before_document (modelAssetOk voicesAssetOk noArgs : Bool)
    (providers : Option (List Str)) (available ps : List Str) :
    (modelAssetOk = false ∨ voicesAssetOk = false →
      (cli_main modelAssetOk voicesAssetOk noArgs providers available).exitCode = some 1 ∧
      Event.printAssetRemediation ∈
        (cli_main modelAssetOk voicesAssetOk noArgs providers available).events ∧
      Event.openDocument ∉
        (cli_main modelAssetOk voicesAssetOk noArgs providers available).events) ∧
    (providers = some ps → ps.filter (fun q => !available.contains q) ≠ [] →
      (cli_main true true false providers available).exitCode = some 1 ∧
      Event.printInvalidProviders (ps.filter fun q => !available.contains q) available ∈
        (cli_main true true false providers available).events ∧
      Event.openDocument ∉ (cli_main true true false providers available).events) := by
  constructor
  · rintro (h | h) <;> rw [h] <;> simp [cli_main]
  · rintro rfl hinv
    match ps with
    | [] => simp at hinv
    | p :: ps =>
      have hcli : cli_main true true false (some (p :: ps)) available =
          { events := [Event.printInvalidProviders
              ((p :: ps).filter fun q => !available.contains q) available],
            exitCode := some 1 } := by
        rw [show cli_main true true false (some (p :: ps)) available =
          mainEvents (some (p :: ps)) available from rfl]
        simp only [mainEvents]
        rw [if_pos hinv]
      rw [hcli]
      refine ⟨rfl, List.mem_singleton.mpr rfl, ?_⟩
      intro habs
      simp at habs

/-- Witness for C9 at concrete inputs: the model asset missing, and an unknown
provider name `Foo` against the available set `CPU`. -/
theorem C9_config_errors_before_document_witness :
    ((cli_main false true true none []).exitCode = some 1 ∧
      Event.printAssetRemediation ∈ (cli_main false true true none []).events ∧
      Event.openDocument ∉ (cli_main false true true none []).events) ∧
    ((cli_main true true false (some ["Foo".toList]) ["CPU".toList]).exitCode = some 1 ∧
      Event.printInvalidProviders
          (["Foo".toList].filter fun q => !(["CPU".toList].contains q)) ["CPU".toList] ∈
        (cli_main true true false (some ["Foo".toList]) ["CPU".toList]).events ∧
      Event.openDocument ∉
        (cli_main true true false (some ["Foo".toList]) ["CPU".toList]).events) :=
  ⟨(C9_config_errors_before_document false true true none [] ["Foo".toList]).1 (Or.inl rfl),
   (C9_config_errors_before_document true true false (some ["Foo".toList]) ["CPU".toList]
      ["Foo".toList]).2 rfl (by decide)⟩

end Audiblez
